import Mathlib

/-!
Verification of the ODIM aggregation discovery engine
(`svc-aggregation/system/common.go`) against its specification.

The Go source is shallowly embedded: pure helpers become Lean functions on
`String` / `List Char`; the stateful crawl becomes explicit state passing with
a fuel parameter (structural, so everything evaluates by `decide`); Go `int32`
arithmetic is modelled by `Int` (no overflow is relevant to any claim here);
Go runtime panics (out-of-range index, failed type assertion) are modelled by
`Option` with `none` for the panic.
-/

namespace ODIM

/-- Model of Go `strings.ToLower` restricted to per-character lowering
(`strings.EqualFold` agrees with lowercase comparison on the ASCII data that
appears in resource paths). -/
def lowerStr (s : String) : String := String.mk (s.data.map Char.toLower)

/-- Model of Go `strings.EqualFold` (case-insensitive equality). -/
def eqFold (a b : String) : Bool := lowerStr a == lowerStr b

/-- Model of Go `strings.Split(s, "/")`: split on the path separator.
Implemented on the character list so that it is kernel-computable and the
Mathlib `List.splitOn` lemmas apply. -/
def goSplit (s : String) : List String := (s.data.splitOn '/').map String.mk

/-- Model of Go `strings.Join(parts, "/")`. -/
def goJoin (parts : List String) : String :=
  String.mk (List.intercalate ['/'] (parts.map String.data))

/-- Model of Go `strings.Contains(s, sub)`. -/
def goContains (s sub : String) : Bool :=
  (List.range (s.data.length + 1)).any fun i => sub.data.isPrefixOf (s.data.drop i)

/-- Model of Go `strings.HasSuffix`. -/
def goHasSuffix (s suf : String) : Bool := suf.data.isSuffixOf s.data

/-- Model of Go `strings.TrimSuffix(s, suf)`. -/
def goTrimSuffix (s suf : String) : String :=
  if goHasSuffix s suf then String.mk (s.data.take (s.data.length - suf.data.length)) else s

/-- Fuel-driven worker for `goReplace`; the fuel is the length of the subject
string, which suffices because every step consumes at least one character. -/
def replAux (pat rep : List Char) : Nat → List Char → List Char
  | 0, s => s
  | _ + 1, [] => []
  | f + 1, c :: cs =>
    if pat ≠ [] ∧ pat.isPrefixOf (c :: cs) then
      rep ++ replAux pat rep f (List.drop pat.length (c :: cs))
    else
      c :: replAux pat rep f cs

/-- Model of Go `strings.Replace(s, pat, rep, -1)` (replace all, left to
right, non-overlapping).  The Go behaviour for an empty pattern (interleaving
`rep` at every position) is irrelevant to every claim and is modelled as the
identity. -/
def goReplace (s pat rep : String) : String :=
  if pat = "" then s
  else String.mk (replAux pat.data rep.data s.data.length s.data)

/-- The one-trailing-separator strip performed at the top of `keyFormation`
(`if oid[len(oid)-1:] == "/" { oid = oid[:len(oid)-1] }`). -/
def goTrimSlash (s : String) : String :=
  if s.data.getLast? = some '/' then String.mk s.data.dropLast else s

/-- The owner-segment test of `keyFormation`: the previous path segment
case-insensitively matches one of Systems/Chassis/Managers/FirmwareInventory/
SoftwareInventory. -/
def isOwnerSeg (prev : String) : Bool :=
  eqFold prev "Systems" || eqFold prev "Chassis" || eqFold prev "Managers" ||
    eqFold prev "FirmwareInventory" || eqFold prev "SoftwareInventory"

/-- Segment loop of `keyFormation` (`for i, id := range str`), carrying the
previous segment of the ORIGINAL split (`str[i-1]`).  The two rewrite branches
mirror the source: prefix `DeviceUUID + "."` when the segment equals the
owner id after an owner segment, or unconditionally after a `Licenses`
segment. -/
def keyAux (systemID DeviceUUID : String) : String → List String → List String
  | _, [] => []
  | prev, id :: rest =>
    if id == systemID && isOwnerSeg prev then
      (DeviceUUID ++ "." ++ id) :: keyAux systemID DeviceUUID id rest
    else if eqFold prev "Licenses" then
      (DeviceUUID ++ "." ++ id) :: keyAux systemID DeviceUUID id rest
    else
      id :: keyAux systemID DeviceUUID id rest

/-- Model of `keyFormation(oid, systemID, DeviceUUID)`.  `none` models the Go
runtime panics: `oid == ""` panics on `oid[len(oid)-1:]`, and a first segment
equal to `systemID` panics on the `str[i-1]` access at `i == 0` (the
`Licenses` branch guards `i != 0`, the owner branch does not). -/
def keyFormation (oid systemID DeviceUUID : String) : Option String :=
  if oid = "" then none
  else
    match goSplit (goTrimSlash oid) with
    | [] => none
    | hd :: tl =>
      if hd == systemID then none
      else some (goJoin (hd :: keyAux systemID DeviceUUID hd tl))

/-- `noLicPredsB segs` holds when no segment that has a successor (i.e. no
predecessor position) case-insensitively equals `Licenses`. -/
def noLicPredsB : List String → Bool
  | p :: q :: rest => !(eqFold p "Licenses") && noLicPredsB (q :: rest)
  | _ => true

/-- Member link of a `dmtf.Collection` (`dmtf.Link`; only the `Oid` field is
relevant to the merge). -/
structure Link where
  oid : String
deriving DecidableEq, Repr

/-- Dedup loop of `getSuperSet`: walk the concatenated list, keep the first
occurrence of each `Oid` (`existing` plays the Go `map[string]bool`). -/
def superAux : List Link → List String → List Link
  | [], _ => []
  | l :: ls, existing =>
    if l.oid ∈ existing then superAux ls existing
    else l :: superAux ls (l.oid :: existing)

/-- Model of `getSuperSet(telemetryInfo, resourceData)`: append the new
members to the stored ones, then drop duplicate `Oid`s keeping first
appearances. -/
def getSuperSet (telemetryInfo resourceData : List Link) : List Link :=
  superAux (telemetryInfo ++ resourceData) []

/-- The oids pushed onto the `existing` set after `superAux` has consumed a
prefix (used only in proofs about `getSuperSet`). -/
def pushOids (X : List Link) (seen : List String) : List String :=
  X.foldl (fun s l => l.oid :: s) seen

/-- An HTTP response from the plugin as observed by `contactPlugin`. -/
structure PluginResp where
  status : Nat
  body : String
  location : String
  xAuthToken : String
deriving DecidableEq

/-- Environment for one `contactPlugin` execution: the outcome of the first
`callPlugin` (`none` = connection-level error, i.e. `err != nil`), the
`GetPluginStatus` liveness-probe verdict, and the outcome of the retried
call. -/
structure PluginEnv where
  first : Option PluginResp
  probeHealthy : Bool
  second : Option PluginResp
deriving DecidableEq

/-- Status-message constants of the `response` package used by
`contactPlugin` (their concrete wire values are irrelevant; they are distinct
constants). -/
def CouldNotEstablishConnection : String := "CouldNotEstablishConnection"

/-- `response.ResourceAtURIUnauthorized`. -/
def ResourceAtURIUnauthorized : String := "ResourceAtURIUnauthorized"

/-- `response.InternalError`. -/
def InternalError : String := "InternalError"

/-- Result of `contactPlugin`: how many times `callPlugin` ran, and the
`responseStatus` / error flag / returned data and token handed back. -/
structure ContactOutcome where
  calls : Nat
  statusCode : Nat
  statusMessage : String
  isErr : Bool
  data : String
  token : String
deriving DecidableEq

/-- The part of `contactPlugin` after a response was obtained: the
200/201/202 success check, the 401 mapping, the generic non-2xx mapping, the
northbound body translation (a genuine sequential fold, unlike `callPlugin`'s
southbound loop), and the `Location` / `X-Auth-Token` header selection. -/
def afterResp (calls : Nat) (northTable : List (String × String)) (r : PluginResp) :
    ContactOutcome :=
  if r.status ≠ 201 && r.status ≠ 200 && r.status ≠ 202 then
    if r.status = 401 then
      { calls := calls, statusCode := 401, statusMessage := ResourceAtURIUnauthorized,
        isErr := true, data := "", token := "" }
    else
      { calls := calls, statusCode := r.status, statusMessage := InternalError,
        isErr := true, data := r.body, token := "" }
  else
    let translated := northTable.foldl (fun d kv => goReplace d kv.1 kv.2) r.body
    if r.status = 202 then
      { calls := calls, statusCode := r.status, statusMessage := "", isErr := false,
        data := translated, token := r.location }
    else
      { calls := calls, statusCode := r.status, statusMessage := "", isErr := false,
        data := translated, token := r.xAuthToken }

/-- The connection-failure result of `contactPlugin`
(`http.StatusServiceUnavailable` / `CouldNotEstablishConnection`). -/
def connFail (calls : Nat) : ContactOutcome :=
  { calls := calls, statusCode := 503, statusMessage := CouldNotEstablishConnection,
    isErr := true, data := "", token := "" }

/-- Model of `contactPlugin`: call the plugin; on a connection-level error,
when the request opted into status polling and the liveness probe reports the
plugin healthy, retry exactly once; then map the response status. -/
def contactPlugin (env : PluginEnv) (statusPoll : Bool) (northTable : List (String × String)) :
    ContactOutcome :=
  match env.first with
  | some r => afterResp 1 northTable r
  | none =>
    if statusPoll && env.probeHealthy then
      match env.second with
      | some r => afterResp 2 northTable r
      | none => connFail 2
    else connFail 1

/-- Observable actions of one `getTeleInfo` execution, in the order they are
performed. `createLock` stands for a SUCCESSFUL
`GenericSave(nil, "ActiveMetricRequest", oid)`. -/
inductive TeleEvent where
  | contact
  | checkLock
  | createLock
  | saveResource
  | deleteLock
deriving DecidableEq, Repr

/-- Environment for one `getTeleInfo` execution: outcomes of the external
calls it makes, in source order. -/
structure TeleEnv where
  fetchConnOk : Bool
  fetchStatusOk : Bool
  wildcardOk : Bool
  checkErr : Bool
  lockExists : Bool
  createLockOk : Bool
  saveOk : Bool
deriving DecidableEq

/-- Model of `getTeleInfo` as its trace of external actions plus the returned
progress.  Source order: contact the plugin, require status 200, build the
wildcard, CHECK the ActiveMetricRequest lock, create it, defer its deletion,
save the resource, credit `alottedWork` only on a successful save.  The
deferred `DeleteMetricRequest` runs on every return path entered after the
lock was created. -/
def getTeleInfo (env : TeleEnv) (progress alottedWork : Int) : List TeleEvent × Int :=
  if !env.fetchConnOk then ([.contact], progress)
  else if !env.fetchStatusOk then ([.contact], progress)
  else if !env.wildcardOk then ([.contact], progress)
  else if env.checkErr then ([.contact, .checkLock], progress)
  else if env.lockExists then ([.contact, .checkLock], progress)
  else if !env.createLockOk then ([.contact, .checkLock], progress)
  else if !env.saveOk then
    ([.contact, .checkLock, .createLock, .saveResource, .deleteLock], progress)
  else
    ([.contact, .checkLock, .createLock, .saveResource, .deleteLock],
      progress + alottedWork)

/-- `callPlugin`'s southbound URL rewrite:
`var oid string; for key, value := range table { oid = strings.Replace(req.OID, key, value, -1) }`.
Each iteration restarts from the original `req.OID`, so only the last entry
iterated survives; with an empty table `oid` keeps its zero value `""`. -/
def callPluginOid (table : List (String × String)) (reqOID : String) : String :=
  table.foldl (fun _ kv => goReplace reqOID kv.1 kv.2) ""

mutual
/-- A JSON value as produced by `json.Unmarshal` into `map[string]interface{}`
(`num` models `float64` with `Rat`; the floating representation is irrelevant
to every claim).  Objects and arrays are separate inductives so that all
traversals below are structural and kernel-computable. -/
inductive JValue where
  | str (s : String)
  | num (q : Rat)
  | bool (b : Bool)
  | null
  | obj (fields : JFields)
  | arr (elems : JElems)

/-- Ordered field list of a JSON object; the order stands for the (random)
Go map iteration order, which is exactly what claim C8 is about. -/
inductive JFields where
  | nil
  | cons (key : String) (value : JValue) (rest : JFields)

/-- Element list of a JSON array. -/
inductive JElems where
  | nil
  | cons (value : JValue) (rest : JElems)
end

/-- Build a `JFields` from a list literal. -/
def jfields : List (String × JValue) → JFields
  | [] => .nil
  | (k, v) :: rest => .cons k v (jfields rest)

/-- Build a `JElems` from a list literal. -/
def jelems : List JValue → JElems
  | [] => .nil
  | v :: rest => .cons v (jelems rest)

/-- Go map lookup `m[key]` on an unmarshalled object (first binding wins). -/
def JFields.find? : JFields → String → Option JValue
  | .nil, _ => none
  | .cons k v rest, key => if k = key then some v else JFields.find? rest key

/-- `len` of a Go `[]interface{}`. -/
def JElems.length : JElems → Nat
  | .nil => 0
  | .cons _ rest => rest.length + 1

/-- Go map write `retrievalLinks[link] = oemFlag`: replace the value if the
key is present, otherwise append. -/
def upsertLink (k : String) (v : Bool) : List (String × Bool) → List (String × Bool)
  | [] => [(k, v)]
  | (k2, v2) :: rest =>
    if k2 = k then (k, v) :: rest else (k2, v2) :: upsertLink k v rest

mutual
/-- Model of `getLinks(data, retrievalLinks, oemFlag)`.  Faithful to the
source, including the detail that the local `oemFlag` variable, once set to
`true` because a key equals (case-insensitively) `"Oem"`, STAYS true for all
remaining keys of the same loop — it is not scoped to the `Oem` subtree.
The scalar branch records the value only for the exact key `"@odata.id"`; a
non-string value there would panic in Go (`value.(string)`) — no claim
involves one and the model records nothing in that case. -/
def getLinks : JFields → List (String × Bool) → Bool → List (String × Bool)
  | .nil, acc, _ => acc
  | .cons key value rest, acc, oemFlag =>
    match value with
    | .obj fields =>
      let oem2 := if eqFold key "Oem" then true else oemFlag
      getLinks rest (getLinks fields acc oem2) oem2
    | .arr elems =>
      match getLinksArr key elems acc oemFlag with
      | (acc2, oem2) => getLinks rest acc2 oem2
    | .str s =>
      let acc2 :=
        if key = "@odata.id" then upsertLink (goTrimSuffix s "/") oemFlag acc else acc
      getLinks rest acc2 oemFlag
    | _ => getLinks rest acc oemFlag

/-- Array branch of `getLinks`: only object elements are visited, and the
same leaking `oemFlag` update applies per element. -/
def getLinksArr : String → JElems → List (String × Bool) → Bool → List (String × Bool) × Bool
  | _, .nil, acc, oemFlag => (acc, oemFlag)
  | key, .cons v rest, acc, oemFlag =>
    match v with
    | .obj fields =>
      let oem2 := if eqFold key "Oem" then true else oemFlag
      getLinksArr key rest (getLinks fields acc oem2) oem2
    | _ => getLinksArr key rest acc oemFlag
end

/-- Model of `removeRetrievalLinks`: drop links already traversed, links
equal (case-insensitively, with or without a trailing separator) to the
parent, and links containing any entry of the configured skip list. -/
def removeRetrievalLinks (links : List (String × Bool)) (parentoid : String)
    (resourceList : List String) (traversed : List String) : List (String × Bool) :=
  links.filter fun kv =>
    !(traversed.contains kv.1) &&
      !(eqFold parentoid kv.1 || eqFold (parentoid ++ "/") kv.1) &&
      !(resourceList.any fun r => goContains kv.1 r)

/-- The pure slice of `getSystemInfo` that claim C4 is about: read
`@odata.id` / `Id` / `UUID` from the unmarshalled system document (failed
type assertions panic, modelled `none`), derive the persistence key
`"ComputerSystem:" + keyFormation(oid, id, deviceUUID)`, extract links with
`getLinks(doc, links, false)`, and filter them through
`removeRetrievalLinks(links, oid, SkipResourceListUnderSystem, TraversedLinks)`.
The returned pair is (inventory-map key, surviving links in iteration order);
`getResourceDetails` is then invoked on exactly the surviving links.  The
duplicate-UUID check, persistence calls and index save are external
collaborators and are not part of this slice. -/
def getSystemInfo (doc : JFields) (deviceUUID : String) (skipListUnderSystem : List String)
    (traversed : List String) : Option (String × List (String × Bool)) :=
  match doc.find? "@odata.id" with
  | some (.str oid) =>
    match doc.find? "Id", doc.find? "UUID" with
    | some (.str id), some (.str _) =>
      match keyFormation oid id deviceUUID with
      | some oidKey =>
        let links := getLinks doc [] false
        let survivors := removeRetrievalLinks links oid skipListUnderSystem traversed
        some ("ComputerSystem:" ++ oidKey, survivors)
      | none => none
    | _, _ => none
  | _ => none

/-- A value stored in the search-index record built by
`createServerSearchIndex`. -/
inductive SVal where
  | num (q : Rat)
  | str (s : String)
  | natv (n : Nat)
  | nums (l : List Rat)
  | strs (l : List String)
deriving DecidableEq

/-- Drive loop of `createServerSearchIndex`: every element of a `Drives`
array is asserted to be an object with a string `@odata.id` (panic → `none`);
`CapacityBytes`, when present and non-null, is asserted to be a number and
contributes bytes/1e9; `MediaType`, when present and non-null, is asserted to
be a string. -/
def driveLoop (storageDB : String → JFields) :
    JElems → List Rat → List String → Option (List Rat × List String)
  | .nil, caps, types => some (caps, types)
  | .cons d rest, caps, types =>
    match d with
    | .obj df =>
      match df.find? "@odata.id" with
      | some (.str s) =>
        let driveRes := storageDB (goTrimSuffix s "/")
        match driveRes.find? "CapacityBytes" with
        | some (.num q) =>
          match driveRes.find? "MediaType" with
          | some (.str m) =>
            driveLoop storageDB rest (caps ++ [q / 1000000000]) (types ++ [m])
          | none => driveLoop storageDB rest (caps ++ [q / 1000000000]) types
          | some .null => driveLoop storageDB rest (caps ++ [q / 1000000000]) types
          | some _ => none
        | none =>
          match driveRes.find? "MediaType" with
          | some (.str m) => driveLoop storageDB rest caps (types ++ [m])
          | none => driveLoop storageDB rest caps types
          | some .null => driveLoop storageDB rest caps types
          | some _ => none
        | some .null =>
          match driveRes.find? "MediaType" with
          | some (.str m) => driveLoop storageDB rest caps (types ++ [m])
          | none => driveLoop storageDB rest caps types
          | some .null => driveLoop storageDB rest caps types
          | some _ => none
        | some _ => none
      | _ => none
    | _ => none

/-- Storage-member loop of `createServerSearchIndex`: every member of the
storage collection is asserted to be an object with a string `@odata.id`; a
non-null `Drives` value is asserted to be an array; the flag records whether
any member had drives (only then are the three Storage keys written). -/
def memberLoop (storageDB : String → JFields) :
    JElems → Bool → Nat → List Rat → List String →
      Option (Bool × Nat × List Rat × List String)
  | .nil, flag, qty, caps, types => some (flag, qty, caps, types)
  | .cons m rest, flag, qty, caps, types =>
    match m with
    | .obj mf =>
      match mf.find? "@odata.id" with
      | some (.str s) =>
        let storageRes := storageDB (goTrimSuffix s "/")
        match storageRes.find? "Drives" with
        | none => memberLoop storageDB rest flag qty caps types
        | some .null => memberLoop storageDB rest flag qty caps types
        | some (.arr ds) =>
          match driveLoop storageDB ds caps types with
          | none => none
          | some (caps2, types2) =>
            memberLoop storageDB rest true (qty + ds.length) caps2 types2
        | some _ => none
      | _ => none
    | _ => none

/-- Storage block of `createServerSearchIndex` (`computeSystem["Storage"]`
present or a `/Storage` key): resolve the collection id, fetch it from the
storage lookup, walk its members. -/
def storageBlock (computeSystem : JFields) (oidKey : String)
    (storageDB : String → JFields) (form : List (String × SVal)) :
    Option (List (String × SVal)) :=
  if (computeSystem.find? "Storage").isSome || goContains oidKey "/Storage" then
    let id? : Option String :=
      if goContains oidKey "/Storage" then some oidKey
      else
        match computeSystem.find? "Storage" with
        | some (.obj sf) =>
          match sf.find? "@odata.id" with
          | some (.str s) => some s
          | _ => none
        | _ => none
    match id? with
    | none => none
    | some sid =>
      let coll := storageDB (goTrimSuffix sid "/")
      match coll.find? "Members" with
      | none => some form
      | some .null => some form
      | some (.arr ms) =>
        match memberLoop storageDB ms false 0 [] [] with
        | none => none
        | some (flag, qty, caps, types) =>
          if flag then
            some (form ++
              [("Storage/Drives/Quantity", .natv qty),
               ("Storage/Drives/Capacity", .nums caps),
               ("Storage/Drives/Type", .strs types)])
          else some form
      | some _ => none
  else some form

/-- Model of `createServerSearchIndex(computeSystem, oidKey, deviceUUID)`.
`none` models a Go runtime panic from a failed type assertion.  The source
guards the PRESENCE of `MemorySummary`, `TotalSystemPersistentMemoryGiB`,
`SystemType`, `ProcessorSummary` and `PowerState`, but asserts
`memSum["TotalSystemMemoryGiB"].(float64)`, `procSum["Count"].(float64)` and
`procSum["Model"].(string)` without a presence check — an absent (or null)
nested attribute there panics.  `firmwareVersion` stands for the result of
`getFirmwareVersion` (whose error is discarded by the source), `storageDB`
for `agcommon.GetStorageResources`. -/
def createServerSearchIndex (computeSystem : JFields) (oidKey : String)
    (firmwareVersion : String) (storageDB : String → JFields) :
    Option (List (String × SVal)) :=
  let step1 : Option (List (String × SVal)) :=
    match computeSystem.find? "MemorySummary" with
    | none => some []
    | some (.obj ms) =>
      match ms.find? "TotalSystemMemoryGiB" with
      | some (.num q) =>
        match ms.find? "TotalSystemPersistentMemoryGiB" with
        | none => some [("MemorySummary/TotalSystemMemoryGiB", .num q)]
        | some (.num p) =>
          some [("MemorySummary/TotalSystemMemoryGiB", .num q),
                ("MemorySummary/TotalSystemPersistentMemoryGiB", .num p)]
        | some _ => none
      | _ => none
    | some _ => none
  match step1 with
  | none => none
  | some f1 =>
    let step2 : Option (List (String × SVal)) :=
      match computeSystem.find? "SystemType" with
      | none => some f1
      | some (.str s) => some (f1 ++ [("SystemType", .str s)])
      | some _ => none
    match step2 with
    | none => none
    | some f2 =>
      let step3 : Option (List (String × SVal)) :=
        match computeSystem.find? "ProcessorSummary" with
        | none => some f2
        | some (.obj ps) =>
          match ps.find? "Count", ps.find? "Model" with
          | some (.num c), some (.str m) =>
            some (f2 ++
              [("ProcessorSummary/Count", .num c),
               ("ProcessorSummary/sockets", .num c),
               ("ProcessorSummary/Model", .str m)])
          | _, _ => none
        | some _ => none
      match step3 with
      | none => none
      | some f3 =>
        let step4 : Option (List (String × SVal)) :=
          match computeSystem.find? "PowerState" with
          | none => some f3
          | some (.str s) => some (f3 ++ [("PowerState", .str s)])
          | some _ => none
        match step4 with
        | none => none
        | some f4 =>
          let f5 :=
            if !(goContains oidKey "/Storage") then
              f4 ++ [("FirmwareVersion", .str firmwareVersion)]
            else f4
          storageBlock computeSystem oidKey storageDB f5

/-- A discovered-resource graph: each entry maps a canonical path to the link
set `getLinks` extracts from its document (an absent path models a
`contactPlugin` or `json.Unmarshal` failure on that branch).  The entry lists
carry the OEM flags for fidelity; traversal and progress never read them. -/
abbrev GraphDoc : Type := List (String × List (String × Bool))

/-- Fetch-and-parse of one crawl node collapsed to a lookup. -/
def lookupDoc (g : GraphDoc) (oid : String) : Option (List (String × Bool)) :=
  (List.find? (fun kv => kv.1 == oid) g).map (·.2)

/-- Mutable crawl state: `TraversedLinks`, the shared progress counter, and
the trace of paths handed to `contactPlugin` (for the at-most-once claim). -/
structure CrawlState where
  visited : Finset String
  progress : Int
  fetched : List String
deriving DecidableEq

/-- Model of `checkRetrieval(oid, parentoid, traversedLinks)`: skip links
already traversed, links equal (case-insensitively, with or without trailing
separator) to the parent, and children of parents matching the configured
`SkipResourceListUnderOthers`. -/
def checkRetrieval (oid parentoid : String) (traversedLinks : Finset String)
    (skipUnderOthers : List String) : Bool :=
  if oid ∈ traversedLinks then false
  else if eqFold parentoid oid || eqFold (parentoid ++ "/") oid then false
  else if skipUnderOthers.any (fun r => goContains parentoid r) then false
  else true

/-- Per-child budget of `getResourceDetails`:
`alottedWork / int32(len(retrievalLinks))` — the divisor is the number of
EXTRACTED links, not the number of surviving ones.  Go `int32` division
truncates toward zero, i.e. `Int.tdiv`. -/
def estimatedWork (alottedWork : Int) (links : List (String × Bool)) : Int :=
  Int.tdiv alottedWork (links.length : Int)

/-- The child loop of `getResourceDetails`
(`for oid, oemFlag := range retrievalLinks`): test `checkRetrieval` against
the CURRENT traversed set, recurse on the trailing-separator-trimmed link.
`visit` is the recursive call at one less fuel. -/
def runChildren (skipUnderOthers : List String)
    (visit : String → CrawlState → Option CrawlState) :
    List (String × Bool) → String → CrawlState → Option CrawlState
  | [], _, st => some st
  | l :: ls, parentOID, st =>
    if checkRetrieval l.1 parentOID st.visited skipUnderOthers then
      match visit (goTrimSuffix l.1 "/") st with
      | none => none
      | some st2 => runChildren skipUnderOthers visit ls parentOID st2
    else runChildren skipUnderOthers visit ls parentOID st

/-- Model of `getResourceDetails`: mark the path traversed, fetch it (a fetch
or parse failure records the error and returns the progress unchanged),
recurse through the surviving links with the divided budget, then credit the
FULL `alottedWork` on top of whatever the children contributed.  The fuel
argument only bounds recursion depth so the definition is total and
kernel-computable; `none` means the fuel ran out, and the termination theorem
shows `(linkTargets g).card + 1` fuel never does on canonical graphs. -/
def getResourceDetails (g : GraphDoc) (skipUnderOthers : List String) :
    Nat → String → Int → CrawlState → Option CrawlState
  | 0, _, _, _ => none
  | fuel + 1, oid, alottedWork, st =>
    let st1 : CrawlState :=
      { visited := insert oid st.visited, progress := st.progress,
        fetched := st.fetched ++ [oid] }
    match lookupDoc g oid with
    | none => some st1
    | some links =>
      match
        runChildren skipUnderOthers
          (fun coid cst =>
            getResourceDetails g skipUnderOthers fuel coid (estimatedWork alottedWork links) cst)
          links oid st1 with
      | none => none
      | some st2 => some { st2 with progress := st2.progress + alottedWork }

/-- All possible recursion targets of a crawl over `g`: the
trailing-separator-trimmed link values of every document. -/
def linkTargets (g : GraphDoc) : Finset String :=
  ((g.map fun kv => kv.2.map fun l => goTrimSuffix l.1 "/").flatten).toFinset

/-- `g` is canonical: no stored link value retains a trailing separator
(which is what `getLinks` produces for link values with at most one trailing
separator — `strings.TrimSuffix` strips only one). -/
def trimFixedB (g : GraphDoc) : Bool :=
  g.all fun kv => kv.2.all fun l => goTrimSuffix l.1 "/" == l.1

/-- The System document of the spec's discovery scenario. -/
def sysDocC4 : JFields :=
  jfields
    [("@odata.id", .str "/redfish/v1/Systems/1"),
     ("Id", .str "1"),
     ("UUID", .str "u1"),
     ("Storage", .obj (jfields [("@odata.id", .str "/redfish/v1/Systems/1/Storage")]))]

/-! ## Theorems -/

/-- A fold that ignores its accumulator returns the image of the last
element. -/
theorem foldl_const_last {α β : Type} (g : α → β) :
    ∀ (l : List α) (acc : β) (h : l ≠ []), l.foldl (fun _ x => g x) acc = g (l.getLast h)
  | [x], _, _ => rfl
  | x :: y :: ys, acc, _ => by
    rw [List.foldl_cons, foldl_const_last g (y :: ys) (g x) (List.cons_ne_nil y ys)]
    rfl

/-- C10: `callPlugin` rewrites the outbound path by iterating the southbound
translation table but restarting each `strings.Replace` from the original
`req.OID`, so the path actually sent reflects only the LAST entry iterated;
with two applicable entries the result differs from applying both
translations, so all translations are applied only in the one-entry case. -/
theorem callPlugin_southbound_last_entry_only :
    (∀ (table : List (String × String)) (reqOID : String) (h : table ≠ []),
      callPluginOid table reqOID =
        goReplace reqOID (table.getLast h).1 (table.getLast h).2)
    ∧ callPluginOid [("A", "X"), ("B", "Y")] "/AB" = "/AY"
    ∧ goReplace (goReplace "/AB" "A" "X") "B" "Y" = "/XY"
    ∧ ("/AY" : String) ≠ "/XY" := by
  refine ⟨fun table reqOID h => ?_, by decide, by decide, by decide⟩
  exact foldl_const_last (fun kv => goReplace reqOID kv.1 kv.2) table "" h

/-- C10 witness: the one-entry table instantiation. -/
theorem callPlugin_southbound_last_entry_only_witness :
    callPluginOid [("A", "X")] "/AB" = "/XB" := by
  rw [callPlugin_southbound_last_entry_only.1 [("A", "X")] "/AB" (by simp)]
  decide

/-- The seed is preserved by `pushOids`. -/
theorem pushOids_seen_mem :
    ∀ (X : List Link) (seen : List String) (s : String), s ∈ seen → s ∈ pushOids X seen := by
  intro X
  induction X with
  | nil => intro seen s h; exact h
  | cons x xs ih =>
    intro seen s h
    exact ih (x.oid :: seen) s (List.mem_cons_of_mem _ h)

/-- Everything pushed from `X` is in `pushOids X seen`. -/
theorem pushOids_mem :
    ∀ (X : List Link) (seen : List String) (l : Link), l ∈ X → l.oid ∈ pushOids X seen := by
  intro X
  induction X with
  | nil => intro seen l h; cases h
  | cons x xs ih =>
    intro seen l h
    have hstep : pushOids (x :: xs) seen = pushOids xs (x.oid :: seen) := rfl
    rcases List.mem_cons.mp h with h1 | h2
    · rw [hstep, h1]
      exact pushOids_seen_mem xs (x.oid :: seen) x.oid (List.mem_cons_self _ _)
    · rw [hstep]; exact ih (x.oid :: seen) l h2

/-- `superAux` drops everything whose oid is already seen. -/
theorem superAux_skip_all :
    ∀ (Y : List Link) (seen : List String), (∀ l ∈ Y, l.oid ∈ seen) → superAux Y seen = [] := by
  intro Y
  induction Y with
  | nil => intro seen _; rfl
  | cons y ys ih =>
    intro seen h
    have hy : y.oid ∈ seen := h y (List.mem_cons_self _ _)
    simp only [superAux, if_pos hy]
    exact ih seen fun l hl => h l (List.mem_cons_of_mem _ hl)

/-- `superAux` passes a fresh, duplicate-free prefix through unchanged. -/
theorem superAux_fresh :
    ∀ (X Y : List Link) (seen : List String),
      (X.map Link.oid).Nodup → (∀ l ∈ X, l.oid ∉ seen) →
      superAux (X ++ Y) seen = X ++ superAux Y (pushOids X seen) := by
  intro X
  induction X with
  | nil => intro Y seen _ _; rfl
  | cons x xs ih =>
    intro Y seen hnd hfresh
    have hx : x.oid ∉ seen := hfresh x (List.mem_cons_self _ _)
    have hstep : superAux ((x :: xs) ++ Y) seen = x :: superAux (xs ++ Y) (x.oid :: seen) := by
      simp only [List.cons_append, superAux, if_neg hx]
      rfl
    rw [hstep]
    have hnd2 : (xs.map Link.oid).Nodup := (List.nodup_cons.mp hnd).2
    have hx2 : x.oid ∉ xs.map Link.oid := (List.nodup_cons.mp hnd).1
    have hfresh2 : ∀ l ∈ xs, l.oid ∉ x.oid :: seen := by
      intro l hl
      intro hmem
      rcases List.mem_cons.mp hmem with h1 | h2
      · exact hx2 (h1 ▸ List.mem_map_of_mem Link.oid hl)
      · exact hfresh l (List.mem_cons_of_mem _ hl) h2
    rw [ih Y (x.oid :: seen) hnd2 hfresh2]
    rfl

/-- C7 counterexample: for a member list with a duplicated identifier,
`getSuperSet(X, X)` does NOT have the same identifiers as `X`. -/
theorem getSuperSet_dup_counterexample :
    (getSuperSet [Link.mk "a", Link.mk "a"] [Link.mk "a", Link.mk "a"]).map Link.oid ≠
      ([Link.mk "a", Link.mk "a"]).map Link.oid := by decide

/-- C7 (amended): the member union is keyed by `Oid` in first-appearance
order — `{a,b} ∪ {b,c} = {a,b,c}` — and `getSuperSet(X, X) = X` for every
member list `X` whose identifiers are pairwise distinct. -/
theorem getSuperSet_union_and_idem :
    getSuperSet [Link.mk "a", Link.mk "b"] [Link.mk "b", Link.mk "c"] =
      [Link.mk "a", Link.mk "b", Link.mk "c"]
    ∧ ∀ X : List Link, (X.map Link.oid).Nodup → getSuperSet X X = X := by
  refine ⟨by decide, fun X h => ?_⟩
  show superAux (X ++ X) [] = X
  rw [superAux_fresh X X [] h (by simp)]
  rw [superAux_skip_all X (pushOids X []) fun l hl => pushOids_mem X [] l hl]
  simp

/-- C7 witness: concrete duplicate-free instantiation of the idempotence
part. -/
theorem getSuperSet_union_and_idem_witness :
    getSuperSet [Link.mk "a", Link.mk "b"] [Link.mk "a", Link.mk "b"] =
      [Link.mk "a", Link.mk "b"] :=
  getSuperSet_union_and_idem.2 [Link.mk "a", Link.mk "b"] (by decide)

/-- `afterResp` reports exactly the number of calls it is given. -/
theorem afterResp_calls (n : Nat) (table : List (String × String)) (r : PluginResp) :
    (afterResp n table r).calls = n := by
  unfold afterResp
  split
  · split <;> rfl
  · split <;> rfl

/-- C5: `contactPlugin` calls the plugin at most twice; the second call
happens exactly when the first failed at connection level, the caller set
`StatusPoll`, and the liveness probe reported the plugin healthy; an HTTP 401
response maps to `ResourceAtURIUnauthorized` after a single call — it is
never retried via the probe, which only reacts to connection failures. -/
theorem contactPlugin_retry_boundary :
    ∀ (env : PluginEnv) (poll : Bool) (table : List (String × String)),
      (contactPlugin env poll table).calls ≤ 2
      ∧ ((contactPlugin env poll table).calls = 2 ↔
          env.first = none ∧ poll = true ∧ env.probeHealthy = true)
      ∧ (∀ r : PluginResp, env.first = some r → r.status = 401 →
          (contactPlugin env poll table).statusMessage = ResourceAtURIUnauthorized ∧
          (contactPlugin env poll table).calls = 1) := by
  intro env poll table
  obtain ⟨first, probe, second⟩ := env
  cases first with
  | some r =>
    refine ⟨?_, ?_, ?_⟩
    · show (afterResp 1 table r).calls ≤ 2
      rw [afterResp_calls]; omega
    · show (afterResp 1 table r).calls = 2 ↔ _
      rw [afterResp_calls]
      simp
    · intro r0 hr h401
      have hrr : r = r0 := by
        simpa using hr
      subst hrr
      constructor
      · show (afterResp 1 table r).statusMessage = ResourceAtURIUnauthorized
        unfold afterResp
        rw [h401]
        simp
      · show (afterResp 1 table r).calls = 1
        rw [afterResp_calls]
  | none =>
    cases poll with
    | false =>
      refine ⟨by simp [contactPlugin, connFail], by simp [contactPlugin, connFail],
        fun r0 hr _ => by simp at hr⟩
    | true =>
      cases probe with
      | false =>
        refine ⟨by simp [contactPlugin, connFail], by simp [contactPlugin, connFail],
          fun r0 hr _ => by simp at hr⟩
      | true =>
        cases second with
        | none =>
          refine ⟨by simp [contactPlugin, connFail], by simp [contactPlugin, connFail],
            fun r0 hr _ => by simp at hr⟩
        | some r =>
          refine ⟨?_, ?_, fun r0 hr _ => by simp at hr⟩
          · show (afterResp 2 table r).calls ≤ 2
            rw [afterResp_calls]
          · show (afterResp 2 table r).calls = 2 ↔ _
            rw [afterResp_calls]
            simp

/-- C5 witness: a 401 first response — `Unauthorized` after one call. -/
theorem contactPlugin_retry_boundary_witness :
    (contactPlugin ⟨some ⟨401, "", "", ""⟩, true, none⟩ true []).statusMessage =
        ResourceAtURIUnauthorized
      ∧ (contactPlugin ⟨some ⟨401, "", "", ""⟩, true, none⟩ true []).calls = 1 :=
  (contactPlugin_retry_boundary ⟨some ⟨401, "", "", ""⟩ , true, none⟩ true []).2.2
    ⟨401, "", "", ""⟩ rfl rfl

/-- C6 counterexample: with the lock already held (`lockExists`), the fetch
attempt is NOT skipped entirely — the plugin has already been contacted
before the lock check (`contactPlugin` runs first in `getTeleInfo`). -/
theorem getTeleInfo_contacts_despite_lock :
    getTeleInfo ⟨true, true, true, false, true, true, true⟩ 7 5 =
        ([TeleEvent.contact, TeleEvent.checkLock], 7)
      ∧ TeleEvent.contact ∈ (getTeleInfo ⟨true, true, true, false, true, true, true⟩ 7 5).1 := by
  decide

/-- C6 (amended): when the `ActiveMetricRequest` lock for the path already
exists, `getTeleInfo` creates no lock, persists nothing and leaves the
progress unchanged (although the plugin was already contacted); and whenever
it does create the lock, the deferred delete always runs afterwards, whether
the subsequent save succeeds or fails. -/
theorem getTeleInfo_lock_protocol :
    ∀ (env : TeleEnv) (progress alottedWork : Int),
      (env.lockExists = true →
        TeleEvent.createLock ∉ (getTeleInfo env progress alottedWork).1 ∧
        TeleEvent.saveResource ∉ (getTeleInfo env progress alottedWork).1 ∧
        (getTeleInfo env progress alottedWork).2 = progress)
      ∧ (TeleEvent.createLock ∈ (getTeleInfo env progress alottedWork).1 →
          TeleEvent.deleteLock ∈ (getTeleInfo env progress alottedWork).1) := by
  intro env progress alottedWork
  obtain ⟨f1, f2, f3, f4, f5, f6, f7⟩ := env
  cases f1 <;> cases f2 <;> cases f3 <;> cases f4 <;> cases f5 <;> cases f6 <;> cases f7 <;>
    simp [getTeleInfo]

/-- C6 witness: lock held — nothing persisted, progress unchanged; lock
created — lock deleted. -/
theorem getTeleInfo_lock_protocol_witness :
    (TeleEvent.createLock ∉ (getTeleInfo ⟨true, true, true, false, true, true, true⟩ 3 4).1 ∧
      TeleEvent.saveResource ∉ (getTeleInfo ⟨true, true, true, false, true, true, true⟩ 3 4).1 ∧
      (getTeleInfo ⟨true, true, true, false, true, true, true⟩ 3 4).2 = 3)
    ∧ TeleEvent.deleteLock ∈ (getTeleInfo ⟨true, true, true, false, false, true, false⟩ 3 4).1 :=
  ⟨(getTeleInfo_lock_protocol ⟨true, true, true, false, true, true, true⟩ 3 4).1 rfl,
    (getTeleInfo_lock_protocol ⟨true, true, true, false, false, true, false⟩ 3 4).2 (by decide)⟩

/-- C8: the OEM flag of `getLinks` is NOT determined by the ancestor chain
alone and NOT independent of key iteration order: once a sibling key equal to
`Oem` has been iterated, the leaked local `oemFlag` marks every later-visited
link of the SAME level.  The two documents below contain identical bindings,
only in different iteration orders, and yield different flags for `/x` —
whose ancestor path contains no `Oem` key in either case. -/
theorem getLinks_oem_flag_leak :
    getLinks (jfields [("Oem", .obj (jfields [])),
        ("Links", .obj (jfields [("@odata.id", .str "/x")]))]) [] false = [("/x", true)]
      ∧ getLinks (jfields [("Links", .obj (jfields [("@odata.id", .str "/x")])),
          ("Oem", .obj (jfields []))]) [] false = [("/x", false)] := by
  decide

/-- C9: `createServerSearchIndex` does NOT succeed on every document — when
`MemorySummary` is present without `TotalSystemMemoryGiB`, or
`ProcessorSummary` is present without `Count`, the unguarded type assertion
panics (modelled `none`); with the attributes wholly absent it succeeds and
simply omits them. -/
theorem createServerSearchIndex_panics_on_absent_nested :
    createServerSearchIndex (jfields [("MemorySummary", .obj (jfields []))])
        "/redfish/v1/Systems/d1.1" "" (fun _ => .nil) = none
      ∧ createServerSearchIndex
          (jfields [("ProcessorSummary", .obj (jfields [("Model", .str "Xeon")]))])
          "/redfish/v1/Systems/d1.1" "" (fun _ => .nil) = none
      ∧ createServerSearchIndex (jfields []) "/redfish/v1/Systems/d1.1" "1.0" (fun _ => .nil)
          = some [("FirmwareVersion", .str "1.0")] := by
  decide

/-- C4 counterexample: the inventory key for the scenario document is the
full namespaced path `ComputerSystem:/redfish/v1/Systems/d1.1`, not
`ComputerSystem:d1.1` as the claim states. -/
theorem getSystemInfo_key_counterexample :
    (getSystemInfo sysDocC4 "d1" [] []).map Prod.fst =
        some "ComputerSystem:/redfish/v1/Systems/d1.1"
      ∧ (getSystemInfo sysDocC4 "d1" [] []).map Prod.fst ≠ some "ComputerSystem:d1.1" := by
  decide

/-- C4 (amended): crawling the scenario System document with device UUID `d1`
persists it under `ComputerSystem:/redfish/v1/Systems/d1.1` and recurses into
exactly `/redfish/v1/Systems/1/Storage` (the self link is dropped as the
parent), for every skip list not matching the Storage path and every
traversed set not containing it. -/
theorem getSystemInfo_scenario :
    ∀ (skipList traversed : List String),
      (∀ r ∈ skipList, goContains "/redfish/v1/Systems/1/Storage" r = false) →
      traversed.contains "/redfish/v1/Systems/1/Storage" = false →
      getSystemInfo sysDocC4 "d1" skipList traversed =
        some ("ComputerSystem:/redfish/v1/Systems/d1.1",
          [("/redfish/v1/Systems/1/Storage", false)]) := by
  intro skipList traversed hskip htrav
  have h0 : getSystemInfo sysDocC4 "d1" skipList traversed =
      some ("ComputerSystem:/redfish/v1/Systems/d1.1",
        removeRetrievalLinks
          [("/redfish/v1/Systems/1", false), ("/redfish/v1/Systems/1/Storage", false)]
          "/redfish/v1/Systems/1" skipList traversed) := rfl
  rw [h0]
  have e1 : eqFold "/redfish/v1/Systems/1" "/redfish/v1/Systems/1" = true := by decide
  have e2 : eqFold "/redfish/v1/Systems/1" "/redfish/v1/Systems/1/Storage" = false := by decide
  have e3 : eqFold ("/redfish/v1/Systems/1" ++ "/") "/redfish/v1/Systems/1/Storage" = false := by
    decide
  have e4 : (skipList.any fun r => goContains "/redfish/v1/Systems/1/Storage" r) = false := by
    rw [List.any_eq_false]
    intro r hr
    simp [hskip r hr]
  simp [removeRetrievalLinks, List.filter_cons, e1, e2, e3, e4, htrav]
  exact ⟨by simpa using htrav, by decide⟩

/-- C4 witness: empty skip list and empty traversed set. -/
theorem getSystemInfo_scenario_witness :
    getSystemInfo sysDocC4 "d1" [] [] =
      some ("ComputerSystem:/redfish/v1/Systems/d1.1",
        [("/redfish/v1/Systems/1/Storage", false)]) :=
  getSystemInfo_scenario [] [] (by simp) (by decide)

/-- Membership from `getLast?`. -/
theorem mem_of_getLast?_eq {α : Type} {l : List α} {a : α} (h : l.getLast? = some a) :
    a ∈ l := by
  cases l with
  | nil => simp at h
  | cons x xs =>
    have hne : x :: xs ≠ [] := List.cons_ne_nil _ _
    rw [List.getLast?_eq_getLast_of_ne_nil hne] at h
    have h2 : (x :: xs).getLast hne = a := by injection h
    exact h2 ▸ List.getLast_mem hne

/-- No element of a `splitOnP` part satisfies the separator predicate. -/
theorem splitOnP_sep_free {α : Type} (p : α → Bool) :
    ∀ (xs : List α) (t : List α), t ∈ xs.splitOnP p → ∀ a ∈ t, p a = false := by
  intro xs
  induction xs with
  | nil =>
    intro t ht a ha
    rw [List.splitOnP_nil] at ht
    simp only [List.mem_singleton] at ht
    subst ht
    cases ha
  | cons x xs ih =>
    intro t ht a ha
    rw [List.splitOnP_cons] at ht
    by_cases hx : p x = true
    · rw [if_pos hx] at ht
      rcases List.mem_cons.mp ht with h1 | h2
      · subst h1; cases ha
      · exact ih t h2 a ha
    · rw [if_neg hx] at ht
      obtain ⟨h0, t0, hsplit⟩ : ∃ h0 t0, xs.splitOnP p = h0 :: t0 := by
        rcases hh : xs.splitOnP p with _ | ⟨h0, t0⟩
        · exact absurd hh (List.splitOnP_ne_nil p xs)
        · exact ⟨h0, t0, rfl⟩
      rw [hsplit, List.modifyHead_cons] at ht
      rcases List.mem_cons.mp ht with h1 | h2
      · subst h1
        rcases List.mem_cons.mp ha with ha1 | ha2
        · subst ha1; simpa using hx
        · exact ih h0 (by rw [hsplit]; exact List.mem_cons_self h0 t0) a ha2
      · exact ih t (by rw [hsplit]; exact List.mem_cons_of_mem h0 h2) a ha

/-- Segments produced by `goSplit` contain no separator. -/
theorem goSplit_sep_free (x s : String) (hs : s ∈ goSplit x) : '/' ∉ s.data := by
  unfold goSplit at hs
  obtain ⟨t, ht, rfl⟩ := List.mem_map.mp hs
  intro hmem
  have h2 : t ∈ x.data.splitOnP (· == '/') := by
    simpa [List.splitOn] using ht
  have h3 := splitOnP_sep_free (· == '/') x.data t h2 '/' hmem
  simp at h3

/-- Rebuilding each string from its characters is the identity. -/
theorem map_mk_data (parts : List String) : parts.map (fun s => String.mk s.data) = parts := by
  induction parts with
  | nil => rfl
  | cons p ps ih => simp [ih]

/-- `goSplit` is a left inverse of `goJoin` on nonempty separator-free
segment lists. -/
theorem goSplit_goJoin (parts : List String) (hne : parts ≠ [])
    (hsep : ∀ s ∈ parts, '/' ∉ s.data) : goSplit (goJoin parts) = parts := by
  unfold goSplit goJoin
  show ((List.intercalate ['/'] (parts.map String.data)).splitOn '/').map String.mk = parts
  rw [List.splitOn_intercalate (parts.map String.data) '/' ?hx ?hls]
  case hx =>
    intro l hl
    obtain ⟨s, hs, rfl⟩ := List.mem_map.mp hl
    exact hsep s hs
  case hls => simpa using hne
  rw [List.map_map]
  exact map_mk_data parts

/-- `intercalate` on two-or-more parts peels off the first part and one
separator. -/
theorem intercalate_cons₂ {α : Type} (sep x y : List α) (zs : List (List α)) :
    List.intercalate sep (x :: y :: zs) = x ++ sep ++ List.intercalate sep (y :: zs) := by
  simp [List.intercalate, List.intersperse]

/-- The character list of `goJoin parts` is nonempty and does not end in a
separator, for nonempty parts lists whose last part is nonempty and whose
parts are separator-free. -/
theorem goJoin_data_facts :
    ∀ (parts : List String), parts ≠ [] → parts.getLast? ≠ some "" →
      (∀ s ∈ parts, '/' ∉ s.data) →
      (goJoin parts).data ≠ [] ∧ (goJoin parts).data.getLast? ≠ some '/' := by
  intro parts
  induction parts with
  | nil => intro h; exact absurd rfl h
  | cons p ps ih =>
    intro _ hlast hsep
    cases ps with
    | nil =>
      have hdata : (goJoin [p]).data = p.data := by
        simp [goJoin, List.intercalate, List.intersperse]
      have hp : p ≠ "" := by
        intro h; rw [h] at hlast; exact hlast rfl
      constructor
      · rw [hdata]
        intro h
        apply hp
        obtain ⟨d⟩ := p
        simp only at h
        rw [h]
      · rw [hdata]
        intro h
        exact hsep p (List.mem_cons_self _ _) (mem_of_getLast?_eq h)
    | cons q qs =>
      have hlast2 : (q :: qs).getLast? ≠ some "" := by
        rwa [List.getLast?_cons_cons] at hlast
      have hsep2 : ∀ s ∈ q :: qs, '/' ∉ s.data := fun s hs =>
        hsep s (List.mem_cons_of_mem _ hs)
      obtain ⟨ihne, ihlast⟩ := ih (List.cons_ne_nil q qs) hlast2 hsep2
      have hdata : (goJoin (p :: q :: qs)).data =
          p.data ++ '/' :: (goJoin (q :: qs)).data := by
        show (List.intercalate ['/'] (p.data :: (q :: qs).map String.data)) = _
        rw [List.map_cons, intercalate_cons₂]
        simp [goJoin]
      constructor
      · rw [hdata]; simp
      · rw [hdata]
        rw [List.getLast?_append_of_ne_nil _ (List.cons_ne_nil _ _)]
        cases hgd : (goJoin (q :: qs)).data with
        | nil => exact absurd hgd ihne
        | cons d0 ds =>
          rw [List.getLast?_cons_cons]
          rw [hgd] at ihlast
          exact ihlast

/-- The dot separator sits in the data of every `dev ++ "." ++ x`. -/
theorem dot_mem_dotted (dev x : String) : ('.' : Char) ∈ (dev ++ "." ++ x).data := by
  rw [String.data_append, String.data_append]
  exact List.mem_append.mpr (Or.inl (List.mem_append.mpr (Or.inr (by decide))))

/-- A device-prefixed segment never case-folds to a dot-free word. -/
theorem eqFold_dotted (dev p T : String) (hT : '.' ∉ (lowerStr T).data) :
    eqFold (dev ++ "." ++ p) T = false := by
  show (lowerStr (dev ++ "." ++ p) == lowerStr T) = false
  rw [beq_eq_false_iff_ne]
  intro heq
  apply hT
  rw [← heq]
  show ('.' : Char) ∈ ((dev ++ "." ++ p).data.map Char.toLower)
  have hlow : Char.toLower '.' = '.' := by decide
  have h2 := List.mem_map_of_mem Char.toLower (dot_mem_dotted dev p)
  rwa [hlow] at h2

/-- A device-prefixed segment is never an owner segment. -/
theorem isOwnerSeg_dotted (dev p : String) : isOwnerSeg (dev ++ "." ++ p) = false := by
  unfold isOwnerSeg
  rw [eqFold_dotted dev p "Systems" (by decide), eqFold_dotted dev p "Chassis" (by decide),
    eqFold_dotted dev p "Managers" (by decide),
    eqFold_dotted dev p "FirmwareInventory" (by decide),
    eqFold_dotted dev p "SoftwareInventory" (by decide)]
  rfl

/-- Prefixing with the device UUID strictly lengthens a segment. -/
theorem dotted_ne (dev p : String) : dev ++ "." ++ p ≠ p := by
  intro h
  have h2 := congrArg String.length h
  rw [String.length_append, String.length_append] at h2
  rw [show String.length "." = 1 from rfl] at h2
  omega

/-- A device-prefixed segment is never the empty string. -/
theorem dotted_ne_empty (dev x : String) : dev ++ "." ++ x ≠ "" := by
  intro h
  have h2 := dot_mem_dotted dev x
  rw [h] at h2
  cases h2

/-- `keyAux` maps a cons to a cons: the head is kept or device-prefixed. -/
theorem keyAux_cons (sid dev prev x : String) (xs : List String) :
    keyAux sid dev prev (x :: xs) = x :: keyAux sid dev x xs ∨
      keyAux sid dev prev (x :: xs) = (dev ++ "." ++ x) :: keyAux sid dev x xs := by
  by_cases h1 : (x == sid && isOwnerSeg prev) = true
  · right; simp [keyAux, h1]
  · by_cases h2 : eqFold prev "Licenses" = true
    · right; simp [keyAux, h1, h2]
    · left; simp [keyAux, h1, h2]

/-- `keyAux` preserves separator-freeness when the device UUID is
separator-free. -/
theorem keyAux_sep_free (sid dev : String) (hdev : '/' ∉ dev.data) :
    ∀ (l : List String) (prev : String), (∀ s ∈ l, '/' ∉ s.data) →
      ∀ s ∈ keyAux sid dev prev l, '/' ∉ s.data := by
  intro l
  induction l with
  | nil =>
    intro prev _ s hs
    simp [keyAux] at hs
  | cons x xs ih =>
    intro prev hl s hs
    have hx : '/' ∉ x.data := hl x (List.mem_cons_self _ _)
    have hxs : ∀ s ∈ xs, '/' ∉ s.data := fun s h => hl s (List.mem_cons_of_mem _ h)
    have hdot : '/' ∉ (dev ++ "." ++ x).data := by
      rw [String.data_append, String.data_append]
      intro hmem
      rcases List.mem_append.mp hmem with h1 | h2
      · rcases List.mem_append.mp h1 with h3 | h4
        · exact hdev h3
        · simp at h4
      · exact hx h2
    rcases keyAux_cons sid dev prev x xs with hshape | hshape <;> rw [hshape] at hs
    · rcases List.mem_cons.mp hs with h1 | h2
      · exact h1 ▸ hx
      · exact ih x hxs s h2
    · rcases List.mem_cons.mp hs with h1 | h2
      · exact h1 ▸ hdot
      · exact ih x hxs s h2

/-- `keyAux` keeps the last segment nonempty. -/
theorem keyAux_last_ne (sid dev : String) :
    ∀ (l : List String) (prev : String), l.getLast? ≠ some "" →
      (keyAux sid dev prev l).getLast? ≠ some "" := by
  intro l
  induction l with
  | nil => intro prev _; simp [keyAux]
  | cons x xs ih =>
    intro prev hlast
    cases xs with
    | nil =>
      have hx : x ≠ "" := by
        intro h; rw [h] at hlast; exact hlast rfl
      rcases keyAux_cons sid dev prev x [] with hshape | hshape <;> rw [hshape] <;>
        simp [keyAux]
      · exact hx
      · exact dotted_ne_empty dev x
    | cons y ys =>
      have hlast2 : (y :: ys).getLast? ≠ some "" := by
        rwa [List.getLast?_cons_cons] at hlast
      have htail := ih x hlast2
      have hk : keyAux sid dev x (y :: ys) ≠ [] := by
        rcases keyAux_cons sid dev x y ys with h | h <;> simp [h]
      rcases keyAux_cons sid dev prev x (y :: ys) with hshape | hshape <;> rw [hshape]
      · show (([x] ++ keyAux sid dev x (y :: ys)).getLast? ≠ some "")
        rw [List.getLast?_append_of_ne_nil _ hk]
        exact htail
      · show ((([dev ++ "." ++ x]) ++ keyAux sid dev x (y :: ys)).getLast? ≠ some "")
        rw [List.getLast?_append_of_ne_nil _ hk]
        exact htail

/-- Core fixpoint: on a segment list with no `Licenses` predecessor,
re-running the `keyFormation` segment transform over its own output changes
nothing, whether the previous segment was kept or device-prefixed. -/
theorem keyAux_fix (sid dev : String) :
    ∀ (tl : List String) (prev prev2 : String),
      (prev2 = prev ∨ prev2 = dev ++ "." ++ prev) →
      noLicPredsB (prev :: tl) = true →
      keyAux sid dev prev2 (keyAux sid dev prev tl) = keyAux sid dev prev tl := by
  intro tl
  induction tl with
  | nil => intro prev prev2 _ _; rfl
  | cons x xs ih =>
    intro prev prev2 hp hnl
    have hconj : eqFold prev "Licenses" = false ∧ noLicPredsB (x :: xs) = true := by
      have h := hnl
      simp only [noLicPredsB, Bool.and_eq_true, Bool.not_eq_true'] at h
      exact h
    have hnl1 : eqFold prev "Licenses" = false := hconj.1
    have hnl2 : noLicPredsB (x :: xs) = true := hconj.2
    have hlic2 : eqFold prev2 "Licenses" = false := by
      rcases hp with rfl | rfl
      · exact hnl1
      · exact eqFold_dotted dev prev "Licenses" (by decide)
    by_cases h1 : (x == sid && isOwnerSeg prev) = true
    · have hxsid : x = sid := by
        have h := h1
        simp only [Bool.and_eq_true] at h
        exact beq_iff_eq.mp h.1
      have hpass1 : keyAux sid dev prev (x :: xs) = (dev ++ "." ++ x) :: keyAux sid dev x xs := by
        simp [keyAux, h1]
      rw [hpass1]
      have hbeq : ((dev ++ "." ++ x) == sid) = false := by
        rw [beq_eq_false_iff_ne, ← hxsid]
        exact dotted_ne dev x
      have hpass2 : keyAux sid dev prev2 ((dev ++ "." ++ x) :: keyAux sid dev x xs) =
          (dev ++ "." ++ x) :: keyAux sid dev (dev ++ "." ++ x) (keyAux sid dev x xs) := by
        simp [keyAux, hbeq, hlic2]
      rw [hpass2, ih x (dev ++ "." ++ x) (Or.inr rfl) hnl2]
    · have h1f : (x == sid && isOwnerSeg prev) = false := by
        revert h1; cases x == sid && isOwnerSeg prev <;> simp
      have hpass1 : keyAux sid dev prev (x :: xs) = x :: keyAux sid dev x xs := by
        simp [keyAux, h1f, hnl1]
      rw [hpass1]
      have hc1 : (x == sid && isOwnerSeg prev2) = false := by
        by_cases hx : (x == sid) = true
        · have how : isOwnerSeg prev = false := by
            rw [hx, Bool.true_and] at h1f
            exact h1f
          rcases hp with rfl | rfl
          · simp [hx, how]
          · simp [hx, isOwnerSeg_dotted dev prev]
        · have hx' : (x == sid) = false := by
            revert hx; cases x == sid <;> simp
          simp [hx']
      have hpass2 : keyAux sid dev prev2 (x :: keyAux sid dev x xs) =
          x :: keyAux sid dev x (keyAux sid dev x xs) := by
        simp [keyAux, hc1, hlic2]
      rw [hpass2, ih x x (Or.inl rfl) hnl2]

/-- C3 counterexample: after a `Licenses` segment, `keyFormation` prefixes
unconditionally, so re-applying it to its own output prefixes the licence
segment with the device UUID a second time. -/
theorem keyFormation_licenses_counterexample :
    keyFormation "/redfish/v1/Systems/1/Licenses/L1" "1" "d1" =
        some "/redfish/v1/Systems/d1.1/Licenses/d1.L1"
      ∧ keyFormation "/redfish/v1/Systems/d1.1/Licenses/d1.L1" "1" "d1" =
        some "/redfish/v1/Systems/d1.1/Licenses/d1.d1.L1"
      ∧ ("/redfish/v1/Systems/d1.1/Licenses/d1.d1.L1" : String) ≠
        "/redfish/v1/Systems/d1.1/Licenses/d1.L1" := by
  refine ⟨by decide, by decide, by decide⟩

/-- C3 (amended): `keyFormation` is deterministic, and it is idempotent under
re-application to its own output with the same owner segment PROVIDED the
path has no segment whose predecessor case-folds to `Licenses` (there the
source prefixes unconditionally and double-prefixes on re-application), the
device UUID contains no path separator, and the path's final segment is
nonempty after the single trailing-separator strip. -/
theorem keyFormation_deterministic_idem :
    (∀ (oid sid dev oid2 sid2 dev2 : String),
        oid = oid2 → sid = sid2 → dev = dev2 →
        keyFormation oid sid dev = keyFormation oid2 sid2 dev2)
    ∧ ∀ (oid sid dev out : String),
        keyFormation oid sid dev = some out →
        '/' ∉ dev.data →
        noLicPredsB (goSplit (goTrimSlash oid)) = true →
        (goSplit (goTrimSlash oid)).getLast? ≠ some "" →
        keyFormation out sid dev = some out := by
  constructor
  · intro oid sid dev oid2 sid2 dev2 h1 h2 h3
    rw [h1, h2, h3]
  · intro oid sid dev out hkf hdev hnl hlast
    by_cases hoe : oid = ""
    · simp [keyFormation, hoe] at hkf
    rcases hsegs : goSplit (goTrimSlash oid) with _ | ⟨hd, tl⟩
    · simp [keyFormation, hoe, hsegs] at hkf
    by_cases hhd : (hd == sid) = true
    · simp [keyFormation, hoe, hsegs, hhd] at hkf
    · have hval : keyFormation oid sid dev = some (goJoin (hd :: keyAux sid dev hd tl)) := by
        simp [keyFormation, hoe, hsegs, hhd]
      rw [hval] at hkf
      have hout : out = goJoin (hd :: keyAux sid dev hd tl) := by
        injection hkf with h
        exact h.symm
      have hsep_orig : ∀ s ∈ hd :: tl, '/' ∉ s.data := by
        intro s hs
        exact goSplit_sep_free (goTrimSlash oid) s (by rw [hsegs]; exact hs)
      have hsep_tl : ∀ s ∈ tl, '/' ∉ s.data := fun s hs =>
        hsep_orig s (List.mem_cons_of_mem _ hs)
      have hsep2 : ∀ s ∈ hd :: keyAux sid dev hd tl, '/' ∉ s.data := by
        intro s hs
        rcases List.mem_cons.mp hs with h1 | h2
        · exact h1 ▸ hsep_orig hd (List.mem_cons_self _ _)
        · exact keyAux_sep_free sid dev hdev tl hd hsep_tl s h2
      have hlast0 : (hd :: tl).getLast? ≠ some "" := by rw [hsegs] at hlast; exact hlast
      have hlast2 : (hd :: keyAux sid dev hd tl).getLast? ≠ some "" := by
        cases tl with
        | nil => simpa [keyAux] using hlast0
        | cons t ts =>
          have h2 : (t :: ts).getLast? ≠ some "" := by
            rwa [List.getLast?_cons_cons] at hlast0
          have h3 := keyAux_last_ne sid dev (t :: ts) hd h2
          have hk : keyAux sid dev hd (t :: ts) ≠ [] := by
            rcases keyAux_cons sid dev hd t ts with h | h <;> simp [h]
          show (([hd] ++ keyAux sid dev hd (t :: ts)).getLast? ≠ some "")
          rw [List.getLast?_append_of_ne_nil _ hk]
          exact h3
      have hjoin := goJoin_data_facts (hd :: keyAux sid dev hd tl)
        (List.cons_ne_nil _ _) hlast2 hsep2
      have hout_ne : out ≠ "" := by
        rw [hout]
        intro h
        exact hjoin.1 (congrArg String.data h)
      have htrim : goTrimSlash out = out := by
        unfold goTrimSlash
        rw [if_neg ?hcond]
        case hcond =>
          rw [hout]
          exact hjoin.2
      have hsplit_out : goSplit out = hd :: keyAux sid dev hd tl := by
        rw [hout]
        exact goSplit_goJoin (hd :: keyAux sid dev hd tl) (List.cons_ne_nil _ _) hsep2
      have hnl0 : noLicPredsB (hd :: tl) = true := by rw [hsegs] at hnl; exact hnl
      have hfix := keyAux_fix sid dev tl hd hd (Or.inl rfl) hnl0
      have hfinal : keyFormation out sid dev =
          some (goJoin (hd :: keyAux sid dev hd (keyAux sid dev hd tl))) := by
        simp [keyFormation, hout_ne, htrim, hsplit_out, hhd]
      rw [hfinal, hfix, ← hout]

/-- C3 witness: a Licenses-free path is a fixpoint after one application. -/
theorem keyFormation_deterministic_idem_witness :
    keyFormation "/redfish/v1/Systems/d1.1" "1" "d1" =
      some "/redfish/v1/Systems/d1.1" := by
  have h := keyFormation_deterministic_idem.2 "/redfish/v1/Systems/1" "1" "d1"
    "/redfish/v1/Systems/d1.1" (by decide) (by decide) (by decide) (by decide)
  exact h

/-- A link that passes `checkRetrieval` is not yet traversed. -/
theorem checkRetrieval_not_visited (oid p : String) (v : Finset String) (sk : List String)
    (h : checkRetrieval oid p v sk = true) : oid ∉ v := by
  intro hmem
  simp [checkRetrieval, hmem] at h

/-- A nonnegative budget divides into nonnegative per-child budgets. -/
theorem estimatedWork_nonneg (b : Int) (links : List (String × Bool)) (hb : 0 ≤ b) :
    0 ≤ estimatedWork b links :=
  Int.tdiv_nonneg hb (Int.ofNat_nonneg _)

/-- Every (trimmed) link of a fetched document is a possible recursion
target. -/
theorem lookupDoc_links_target (g : GraphDoc) (oid : String)
    (links : List (String × Bool)) (h : lookupDoc g oid = some links) :
    ∀ l ∈ links, goTrimSuffix l.1 "/" ∈ linkTargets g := by
  intro l hl
  unfold lookupDoc at h
  cases hf : List.find? (fun kv => kv.1 == oid) g with
  | none => rw [hf] at h; simp at h
  | some kv =>
    rw [hf] at h
    simp only [Option.map_some'] at h
    have hkv : kv ∈ g := List.mem_of_find?_eq_some hf
    have hlinks : kv.2 = links := by injection h
    unfold linkTargets
    rw [List.mem_toFinset]
    apply List.mem_flatten.mpr
    refine ⟨kv.2.map (fun l => goTrimSuffix l.1 "/"), ?_, ?_⟩
    · exact List.mem_map_of_mem _ hkv
    · rw [hlinks]
      exact List.mem_map_of_mem _ hl

/-- On a canonical graph, the stored links of every fetched document are
already trimmed. -/
theorem trimFixed_links (g : GraphDoc) (htf : trimFixedB g = true) (oid : String)
    (links : List (String × Bool)) (h : lookupDoc g oid = some links) :
    ∀ l ∈ links, goTrimSuffix l.1 "/" = l.1 := by
  intro l hl
  unfold lookupDoc at h
  cases hf : List.find? (fun kv => kv.1 == oid) g with
  | none => rw [hf] at h; simp at h
  | some kv =>
    rw [hf] at h
    simp only [Option.map_some'] at h
    have hkv : kv ∈ g := List.mem_of_find?_eq_some hf
    have hlinks : kv.2 = links := by injection h
    have h1 := List.all_eq_true.mp htf kv hkv
    have h2 := List.all_eq_true.mp h1 l (by rw [hlinks]; exact hl)
    exact beq_iff_eq.mp h2

/-- `runChildren` only grows the traversed set, provided each visit does. -/
theorem runChildren_visited_mono (skip : List String)
    (visit : String → CrawlState → Option CrawlState)
    (hv : ∀ c st st2, visit c st = some st2 → st.visited ⊆ st2.visited) :
    ∀ (ls : List (String × Bool)) (p : String) (st st2 : CrawlState),
      runChildren skip visit ls p st = some st2 → st.visited ⊆ st2.visited := by
  intro ls
  induction ls with
  | nil =>
    intro p st st2 h
    have h2 : st = st2 := by simpa [runChildren] using h
    rw [h2]
  | cons l ls ih =>
    intro p st st2 h
    by_cases hchk : checkRetrieval l.1 p st.visited skip = true
    · simp only [runChildren, hchk, if_true] at h
      cases hv2 : visit (goTrimSuffix l.1 "/") st with
      | none => rw [hv2] at h; simp at h
      | some st3 =>
        rw [hv2] at h
        exact (hv _ _ _ hv2).trans (ih p st3 st2 h)
    · have hchk' : checkRetrieval l.1 p st.visited skip = false := by
        revert hchk; cases checkRetrieval l.1 p st.visited skip <;> simp
      simp only [runChildren, hchk', if_false] at h
      exact ih p st st2 h

/-- `getResourceDetails` only grows the traversed set. -/
theorem getResourceDetails_visited_mono (g : GraphDoc) (skip : List String) :
    ∀ (fuel : Nat) (oid : String) (b : Int) (st st2 : CrawlState),
      getResourceDetails g skip fuel oid b st = some st2 → st.visited ⊆ st2.visited := by
  intro fuel
  induction fuel with
  | zero => intro oid b st st2 h; simp [getResourceDetails] at h
  | succ fuel ih =>
    intro oid b st st2 h
    simp only [getResourceDetails] at h
    split at h
    next hdoc =>
      have h2 : (⟨insert oid st.visited, st.progress, st.fetched ++ [oid]⟩ : CrawlState) = st2 := by
        simpa using h
      rw [← h2]
      exact Finset.subset_insert _ _
    next links hdoc =>
      split at h
      next hrun => simp at h
      next st3 hrun =>
        have hmono := runChildren_visited_mono skip _
          (fun c s s2 hh => ih c (estimatedWork b links) s s2 hh) links oid _ st3 hrun
        have h2 : st2.visited = st3.visited := by
          have h3 : (⟨st3.visited, st3.progress + b, st3.fetched⟩ : CrawlState) = st2 := by
            simpa using h
          rw [← h3]
        rw [h2]
        exact (Finset.subset_insert oid st.visited).trans hmono

/-- `runChildren` only grows the progress counter, provided each visit
does. -/
theorem runChildren_progress_mono (skip : List String)
    (visit : String → CrawlState → Option CrawlState)
    (hv : ∀ c st st2, visit c st = some st2 → st.progress ≤ st2.progress) :
    ∀ (ls : List (String × Bool)) (p : String) (st st2 : CrawlState),
      runChildren skip visit ls p st = some st2 → st.progress ≤ st2.progress := by
  intro ls
  induction ls with
  | nil =>
    intro p st st2 h
    have h2 : st = st2 := by simpa [runChildren] using h
    rw [h2]
  | cons l ls ih =>
    intro p st st2 h
    by_cases hchk : checkRetrieval l.1 p st.visited skip = true
    · simp only [runChildren, hchk, if_true] at h
      cases hv2 : visit (goTrimSuffix l.1 "/") st with
      | none => rw [hv2] at h; simp at h
      | some st3 =>
        rw [hv2] at h
        exact (hv _ _ _ hv2).trans (ih p st3 st2 h)
    · have hchk' : checkRetrieval l.1 p st.visited skip = false := by
        revert hchk; cases checkRetrieval l.1 p st.visited skip <;> simp
      simp only [runChildren, hchk', if_false] at h
      exact ih p st st2 h

/-- `getResourceDetails` never decreases the progress counter when the
budget is nonnegative (a failed branch still keeps what was already
accumulated). -/
theorem getResourceDetails_progress_mono (g : GraphDoc) (skip : List String) :
    ∀ (fuel : Nat) (oid : String) (b : Int) (st st2 : CrawlState), 0 ≤ b →
      getResourceDetails g skip fuel oid b st = some st2 → st.progress ≤ st2.progress := by
  intro fuel
  induction fuel with
  | zero => intro oid b st st2 _ h; simp [getResourceDetails] at h
  | succ fuel ih =>
    intro oid b st st2 hb h
    simp only [getResourceDetails] at h
    split at h
    next hdoc =>
      have h2 : (⟨insert oid st.visited, st.progress, st.fetched ++ [oid]⟩ : CrawlState) = st2 := by
        simpa using h
      rw [← h2]
    next links hdoc =>
      split at h
      next hrun => simp at h
      next st3 hrun =>
        have hmono := runChildren_progress_mono skip _
          (fun c s s2 hh => ih c (estimatedWork b links) s s2
            (estimatedWork_nonneg b links hb) hh) links oid _ st3 hrun
        have h3 : (⟨st3.visited, st3.progress + b, st3.fetched⟩ : CrawlState) = st2 := by
          simpa using h
        rw [← h3]
        show st.progress ≤ st3.progress + b
        have h4 : st.progress ≤ st3.progress := hmono
        omega

/-- `runChildren` preserves the fetch-trace invariant (trace duplicate-free
and contained in the traversed set), provided each visit does so on fresh
targets and the links are trimmed. -/
theorem runChildren_inv (skip : List String)
    (visit : String → CrawlState → Option CrawlState)
    (hv : ∀ c st st2, c ∉ st.visited → st.fetched.Nodup →
        (∀ x ∈ st.fetched, x ∈ st.visited) → visit c st = some st2 →
        st2.fetched.Nodup ∧ ∀ x ∈ st2.fetched, x ∈ st2.visited) :
    ∀ (ls : List (String × Bool)) (p : String) (st st2 : CrawlState),
      (∀ l ∈ ls, goTrimSuffix l.1 "/" = l.1) →
      st.fetched.Nodup → (∀ x ∈ st.fetched, x ∈ st.visited) →
      runChildren skip visit ls p st = some st2 →
      st2.fetched.Nodup ∧ ∀ x ∈ st2.fetched, x ∈ st2.visited := by
  intro ls
  induction ls with
  | nil =>
    intro p st st2 _ hnd hsub h
    have h2 : st = st2 := by simpa [runChildren] using h
    rw [← h2]
    exact ⟨hnd, hsub⟩
  | cons l ls ih =>
    intro p st st2 hls hnd hsub h
    by_cases hchk : checkRetrieval l.1 p st.visited skip = true
    · simp only [runChildren, hchk, if_true] at h
      cases hv2 : visit (goTrimSuffix l.1 "/") st with
      | none => rw [hv2] at h; simp at h
      | some st3 =>
        rw [hv2] at h
        have hfresh : goTrimSuffix l.1 "/" ∉ st.visited := by
          rw [hls l (List.mem_cons_self _ _)]
          exact checkRetrieval_not_visited l.1 p st.visited skip hchk
        obtain ⟨hnd3, hsub3⟩ := hv _ _ _ hfresh hnd hsub hv2
        exact ih p st3 st2 (fun x hx => hls x (List.mem_cons_of_mem _ hx)) hnd3 hsub3 h
    · have hchk' : checkRetrieval l.1 p st.visited skip = false := by
        revert hchk; cases checkRetrieval l.1 p st.visited skip <;> simp
      simp only [runChildren, hchk', if_false] at h
      exact ih p st st2 (fun x hx => hls x (List.mem_cons_of_mem _ hx)) hnd hsub h

/-- On a canonical graph, `getResourceDetails` keeps the fetch trace
duplicate-free and inside the traversed set, when entered on an untraversed
path. -/
theorem getResourceDetails_inv (g : GraphDoc) (skip : List String)
    (htf : trimFixedB g = true) :
    ∀ (fuel : Nat) (oid : String) (b : Int) (st st2 : CrawlState),
      oid ∉ st.visited → st.fetched.Nodup → (∀ x ∈ st.fetched, x ∈ st.visited) →
      getResourceDetails g skip fuel oid b st = some st2 →
      st2.fetched.Nodup ∧ ∀ x ∈ st2.fetched, x ∈ st2.visited := by
  intro fuel
  induction fuel with
  | zero => intro oid b st st2 _ _ _ h; simp [getResourceDetails] at h
  | succ fuel ih =>
    intro oid b st st2 hnvis hnd hsub h
    have hnd1 : (st.fetched ++ [oid]).Nodup := by
      rw [List.nodup_append]
      refine ⟨hnd, List.nodup_singleton oid, ?_⟩
      intro x hx hx2
      simp only [List.mem_singleton] at hx2
      exact hnvis (hx2 ▸ hsub x hx)
    have hsub1 : ∀ x ∈ st.fetched ++ [oid], x ∈ insert oid st.visited := by
      intro x hx
      rcases List.mem_append.mp hx with h1 | h2
      · exact Finset.mem_insert_of_mem (hsub x h1)
      · simp only [List.mem_singleton] at h2
        rw [h2]
        exact Finset.mem_insert_self _ _
    simp only [getResourceDetails] at h
    split at h
    next hdoc =>
      have h2 : (⟨insert oid st.visited, st.progress, st.fetched ++ [oid]⟩ : CrawlState) = st2 := by
        simpa using h
      rw [← h2]
      exact ⟨hnd1, hsub1⟩
    next links hdoc =>
      split at h
      next hrun => simp at h
      next st3 hrun =>
        have hinv := runChildren_inv skip _
          (fun c s s2 hc hn hs hh => ih c (estimatedWork b links) s s2 hc hn hs hh)
          links oid _ st3 (trimFixed_links g htf oid links hdoc) hnd1 hsub1 hrun
        have h3 : (⟨st3.visited, st3.progress + b, st3.fetched⟩ : CrawlState) = st2 := by
          simpa using h
        rw [← h3]
        exact hinv

/-- On a canonical graph, `(linkTargets g \ visited).card` fuel is enough:
every recursion step enters an untraversed target and immediately marks it,
so the crawl bottoms out before the fuel does.  This is the termination
argument for the source recursion. -/
theorem crawl_fuel_sufficient (g : GraphDoc) (skip : List String)
    (htf : trimFixedB g = true) :
    ∀ fuel : Nat,
      (∀ (oid : String) (b : Int) (st : CrawlState),
        oid ∈ linkTargets g → oid ∉ st.visited →
        (linkTargets g \ st.visited).card ≤ fuel →
        getResourceDetails g skip fuel oid b st ≠ none)
      ∧ ∀ (ls : List (String × Bool)) (p : String) (b : Int) (st : CrawlState),
          (∀ l ∈ ls, goTrimSuffix l.1 "/" = l.1) →
          (∀ l ∈ ls, l.1 ∈ linkTargets g) →
          (linkTargets g \ st.visited).card ≤ fuel →
          runChildren skip
            (fun coid cst => getResourceDetails g skip fuel coid b cst) ls p st ≠ none := by
  intro fuel
  induction fuel using Nat.strong_induction_on with
  | _ fuel IH =>
    have hQ : ∀ (oid : String) (b : Int) (st : CrawlState),
        oid ∈ linkTargets g → oid ∉ st.visited →
        (linkTargets g \ st.visited).card ≤ fuel →
        getResourceDetails g skip fuel oid b st ≠ none := by
      intro oid b st hmem hnvis hcard
      have hpos : 0 < (linkTargets g \ st.visited).card :=
        Finset.card_pos.mpr ⟨oid, Finset.mem_sdiff.mpr ⟨hmem, hnvis⟩⟩
      cases fuel with
      | zero => omega
      | succ f =>
        intro hnone
        simp only [getResourceDetails] at hnone
        split at hnone
        next hdoc => simp at hnone
        next links hdoc =>
          split at hnone
          next hrun =>
            have hcard2 : (linkTargets g \ insert oid st.visited).card ≤ f := by
              rw [Finset.sdiff_insert,
                Finset.card_erase_of_mem (Finset.mem_sdiff.mpr ⟨hmem, hnvis⟩)]
              omega
            have htargets : ∀ l ∈ links, l.1 ∈ linkTargets g := by
              intro l hl
              have h1 := lookupDoc_links_target g oid links hdoc l hl
              rw [trimFixed_links g htf oid links hdoc l hl] at h1
              exact h1
            exact (IH f (Nat.lt_succ_self f)).2 links oid (estimatedWork b links)
              ⟨insert oid st.visited, st.progress, st.fetched ++ [oid]⟩
              (trimFixed_links g htf oid links hdoc) htargets hcard2 hrun
          next st3 hrun => simp at hnone
    refine ⟨hQ, ?_⟩
    intro ls
    induction ls with
    | nil => intro p b st _ _ _; simp [runChildren]
    | cons l ls ihl =>
      intro p b st hls hmemt hcard
      by_cases hchk : checkRetrieval l.1 p st.visited skip = true
      · intro hnone
        simp only [runChildren, hchk, if_true] at hnone
        cases hv : getResourceDetails g skip fuel (goTrimSuffix l.1 "/") b st with
        | none =>
          have hco : goTrimSuffix l.1 "/" = l.1 := hls l (List.mem_cons_self _ _)
          refine hQ (goTrimSuffix l.1 "/") b st ?_ ?_ hcard hv
          · rw [hco]; exact hmemt l (List.mem_cons_self _ _)
          · rw [hco]; exact checkRetrieval_not_visited l.1 p st.visited skip hchk
        | some st3 =>
          rw [hv] at hnone
          have hsubv : st.visited ⊆ st3.visited :=
            getResourceDetails_visited_mono g skip fuel _ b st st3 hv
          have hcard3 : (linkTargets g \ st3.visited).card ≤ fuel :=
            le_trans (Finset.card_le_card
              (Finset.sdiff_subset_sdiff (Finset.Subset.refl _) hsubv)) hcard
          exact ihl p b st3 (fun x hx => hls x (List.mem_cons_of_mem _ hx))
            (fun x hx => hmemt x (List.mem_cons_of_mem _ hx)) hcard3 hnone
      · intro hnone
        have hchk' : checkRetrieval l.1 p st.visited skip = false := by
          revert hchk; cases checkRetrieval l.1 p st.visited skip <;> simp
        simp only [runChildren, hchk', if_false] at hnone
        exact ihl p b st (fun x hx => hls x (List.mem_cons_of_mem _ hx))
          (fun x hx => hmemt x (List.mem_cons_of_mem _ hx)) hcard hnone

/-- C1 counterexample: a stored link that retains a trailing separator
(`getLinks` leaves one when the raw value ends in a doubled separator, e.g.
`"@odata.id": "/b//"`) is tested UNtrimmed against `TraversedLinks` but
recursed on trimmed, so `/b` is fetched a second time although it is already
in the traversed set — the crawl does not fetch each canonical path at most
once.  (On the two-node alias cycle /a→"/b/", /b→"/a/" the same mismatch
makes the source recursion diverge.) -/
theorem getResourceDetails_alias_refetch :
    (getResourceDetails [("/a", [("/b", false), ("/b/", false)]), ("/b", [])] [] 5 "/a" 10
        ⟨∅, 0, []⟩).map (fun st => st.fetched) = some ["/a", "/b", "/b"]
      ∧ ¬(["/a", "/b", "/b"] : List String).Nodup := by
  decide

/-- C1 (amended): on every canonical discovered graph — no stored link value
retains a trailing separator, which is what `getLinks` produces for raw link
values with at most one trailing separator — the recursive crawl terminates
(fuel `card (linkTargets g) + 1` never runs out, cycles A→B→A included) and
fetches each canonical path at most once: the fetch trace is duplicate-free,
and `checkRetrieval` refuses every link already in `TraversedLinks` as well
as every link equal (case-insensitively) to the parent path. -/
theorem getResourceDetails_terminates_and_fetches_once :
    ∀ (g : GraphDoc) (skip : List String) (root : String) (b : Int),
      trimFixedB g = true →
      (getResourceDetails g skip ((linkTargets g).card + 1) root b ⟨∅, 0, []⟩ ≠ none
        ∧ ∀ st2, getResourceDetails g skip ((linkTargets g).card + 1) root b ⟨∅, 0, []⟩ =
            some st2 → st2.fetched.Nodup)
      ∧ (∀ (oid p : String) (v : Finset String) (sk : List String),
          oid ∈ v → checkRetrieval oid p v sk = false)
      ∧ ∀ (oid p : String) (v : Finset String) (sk : List String),
          eqFold p oid = true → checkRetrieval oid p v sk = false := by
  intro g skip root b htf
  refine ⟨⟨?_, ?_⟩, ?_, ?_⟩
  · intro hnone
    simp only [getResourceDetails] at hnone
    split at hnone
    next hdoc => simp at hnone
    next links hdoc =>
      split at hnone
      next hrun =>
        have htargets : ∀ l ∈ links, l.1 ∈ linkTargets g := by
          intro l hl
          have h1 := lookupDoc_links_target g root links hdoc l hl
          rw [trimFixed_links g htf root links hdoc l hl] at h1
          exact h1
        have hcard : (linkTargets g \ insert root (∅ : Finset String)).card ≤
            (linkTargets g).card :=
          Finset.card_le_card (Finset.sdiff_subset)
        exact (crawl_fuel_sufficient g skip htf (linkTargets g).card).2 links root
          (estimatedWork b links)
          ⟨insert root (∅ : Finset String), 0, [] ++ [root]⟩
          (trimFixed_links g htf root links hdoc) htargets hcard hrun
      next st3 hrun => simp at hnone
  · intro st2 h
    exact (getResourceDetails_inv g skip htf ((linkTargets g).card + 1) root b
      ⟨∅, 0, []⟩ st2 (Finset.not_mem_empty root) (List.nodup_nil) (by simp) h).1
  · intro oid p v sk hmem
    simp [checkRetrieval, hmem]
  · intro oid p v sk hfold
    by_cases hmem : oid ∈ v
    · simp [checkRetrieval, hmem]
    · simp [checkRetrieval, hmem, hfold]

/-- C1 witness: the canonical two-node cycle A→B→A terminates with each node
fetched exactly once. -/
theorem getResourceDetails_terminates_and_fetches_once_witness :
    (getResourceDetails [("/a", [("/b", false)]), ("/b", [("/a", false)])] []
        ((linkTargets [("/a", [("/b", false)]), ("/b", [("/a", false)])]).card + 1) "/a" 10
        ⟨∅, 0, []⟩ ≠ none)
      ∧ (["/a", "/b"] : List String).Nodup := by
  have h := getResourceDetails_terminates_and_fetches_once
    [("/a", [("/b", false)]), ("/b", [("/a", false)])] [] "/a" 10 (by decide)
  refine ⟨h.1.1, ?_⟩
  exact h.1.2 ⟨insert "/b" (insert "/a" (∅ : Finset String)), 20, ["/a", "/b"]⟩ (by decide)

/-- C2 counterexample: on the chain /a → /b with budget 10, the step's
progress delta is 20, not at most 10 — `getResourceDetails` credits the full
`alottedWork` on top of what the children already contributed. -/
theorem getResourceDetails_budget_counterexample :
    (getResourceDetails [("/a", [("/b", false)]), ("/b", [])] [] 3 "/a" 10
        ⟨∅, 0, []⟩).map (fun st => st.progress) = some 20
      ∧ ¬((20 : Int) ≤ 10) := by
  decide

/-- C2 (amended): the per-child allocations are bounded by the budget — each
surviving child receives `floor(B/M)` where `M` is the number of EXTRACTED
links (not the number of survivors), and `N` surviving children receive
`N * floor(B/M) ≤ B` in total for `N ≤ M` and `B ≥ 0` — but the step's
returned delta is NOT bounded by `B`: on a successful fetch the step returns
at least the input progress plus the full `B` (credited on top of the
children's deltas), and a failed fetch returns the progress unchanged. -/
theorem getResourceDetails_allocation :
    (∀ (b : Int) (links : List (String × Bool)) (n : Nat),
        n ≤ links.length → 0 ≤ b → (n : Int) * estimatedWork b links ≤ b)
    ∧ ∀ (g : GraphDoc) (skip : List String) (fuel : Nat) (oid : String) (b : Int)
        (st st2 : CrawlState), 0 ≤ b →
        getResourceDetails g skip fuel oid b st = some st2 →
        st.progress ≤ st2.progress ∧
          (lookupDoc g oid ≠ none → st.progress + b ≤ st2.progress) := by
  constructor
  · intro b links n hn hb
    obtain ⟨m, rfl⟩ := Int.eq_ofNat_of_zero_le hb
    show (n : Int) * Int.tdiv (m : Int) ((links.length : Nat) : Int) ≤ (m : Int)
    have hred : Int.tdiv (m : Int) ((links.length : Nat) : Int) =
        ((m / links.length : Nat) : Int) := rfl
    rw [hred, ← Nat.cast_mul]
    apply Nat.cast_le.mpr
    calc n * (m / links.length) ≤ links.length * (m / links.length) :=
          Nat.mul_le_mul_right _ hn
      _ ≤ m := by rw [Nat.mul_comm]; exact Nat.div_mul_le_self m links.length
  · intro g skip fuel oid b st st2 hb h
    refine ⟨getResourceDetails_progress_mono g skip fuel oid b st st2 hb h, ?_⟩
    intro hdoc
    cases fuel with
    | zero => simp [getResourceDetails] at h
    | succ f =>
      simp only [getResourceDetails] at h
      split at h
      next hdoc2 => exact absurd hdoc2 hdoc
      next links hdoc2 =>
        split at h
        next hrun => simp at h
        next st3 hrun =>
          have h3 : (⟨st3.visited, st3.progress + b, st3.fetched⟩ : CrawlState) = st2 := by
            simpa using h
          have hmono := runChildren_progress_mono skip _
            (fun c s s2 hh => getResourceDetails_progress_mono g skip f c
              (estimatedWork b links) s s2 (estimatedWork_nonneg b links hb) hh)
            links oid _ st3 hrun
          rw [← h3]
          show st.progress + b ≤ st3.progress + b
          have h4 : st.progress ≤ st3.progress := hmono
          omega

/-- C2 witness: three extracted links with budget 10 allocate 3 each
(2 survivors get 6 ≤ 10), and the chain crawl returns a delta of at least the
budget on a successful fetch. -/
theorem getResourceDetails_allocation_witness :
    ((2 : Nat) : Int) * estimatedWork 10 [("/x", false), ("/y", false), ("/z", false)] ≤ 10
      ∧ ((0 : Int) ≤ 20 ∧ (0 : Int) + 10 ≤ 20) := by
  refine ⟨getResourceDetails_allocation.1 10 [("/x", false), ("/y", false), ("/z", false)] 2
    (by decide) (by decide), ?_⟩
  have h := getResourceDetails_allocation.2 [("/a", [("/b", false)]), ("/b", [])] [] 3 "/a" 10
    ⟨∅, 0, []⟩ ⟨insert "/b" (insert "/a" (∅ : Finset String)), 20, ["/a", "/b"]⟩
    (by decide) (by decide)
  exact ⟨h.1, h.2 (by decide)⟩

end ODIM
